import Mathlib

/-!
Shallow embedding of the QWERTY Drum Script (QDS) engine
(`src/play/engine.ts`) and of the small compile helper of `src/play.ts`,
together with theorems settling the frozen claims about the engine.

Modelling conventions:
* JS strings are modelled as `List Char` (`Str`); `"lit".data` builds one.
* JS numbers are modelled as `ℚ` where the code computes milliseconds or
  generator values, as `ℤ` where the code stores `parseInt` results, and as
  `ℕ` where the code only ever holds non-negative integers (velocities,
  probabilities, counts).  `NaN`-producing inputs (e.g. a grid string with
  no digits after the slash) are outside every claim considered here and
  are modelled as `0`.
* The non-deterministic `Math.random` source is modelled as an ambient
  stream `ℕ → ℚ`; the seeded `mulberry32` closure is modelled as the
  explicit stream it produces.  A generator is a stream plus a draw
  position (`Rng`), threaded through compilation exactly where the source
  calls `this.rng()`.
-/

namespace QDS

/-- JS strings, as lists of characters. -/
abbrev Str := List Char

/-! ### Basic JS arithmetic helpers -/

/-- `2^32`, the modulus of all 32-bit JS bit operations. -/
def U32 : ℕ := 4294967296

/-- JS `x >>> 0` applied to an integer-valued number: the unsigned 32-bit
pattern, i.e. the value modulo `2^32`. -/
def jsToUint32 (z : ℤ) : ℕ := (z % (U32 : ℤ)).toNat

/-- JS `Math.round`: round half toward positive infinity. -/
def jsRound (q : ℚ) : ℤ := ⌊q + 1 / 2⌋

/-! ### Seeded RNG (Mulberry32), `engine.ts` lines 50-59

The closure advances a 32-bit state by `0x6D2B79F5` on every call and
mixes the new state into the output; hence the `n`-th draw (0-indexed) is
`mix((seed >>> 0) + (n+1) * 0x6D2B79F5 mod 2^32) / 2^32`.  All JS `|0`
coercions and `Math.imul` results are bit patterns modulo `2^32`; signed
readings never matter because `+`, `^`, `>>>`, `|` and `Math.imul` depend
only on the 32-bit pattern of their operands. -/

/-- The output mixing of one `mulberry32` call applied to the (already
advanced) state `a`:
`t = imul(a ^ (a>>>15), 1|a); t = (t + imul(t ^ (t>>>7), 61|t)) ^ t;
return (t ^ (t>>>14)) >>> 0`. -/
def mb32mix (a : ℕ) : ℕ :=
  let t1 := (Nat.xor a (a >>> 15)) * (Nat.lor a 1) % U32
  let t2 := Nat.xor ((t1 + (Nat.xor t1 (t1 >>> 7)) * (Nat.lor t1 61) % U32) % U32) t1
  Nat.xor t2 (t2 >>> 14)

/-- The deterministic draw stream produced by `mulberry32(seed)`:
values in `[0,1)` with denominator `2^32`. -/
def mulberry32 (seed : ℤ) : ℕ → ℚ := fun n =>
  (mb32mix ((jsToUint32 seed + (n + 1) * 0x6D2B79F5) % U32) : ℚ) / (U32 : ℚ)

/-- A pseudo-random source: a draw stream plus the current draw position.
`stream` is `mulberry32 seed` when the header has a seed, and an arbitrary
ambient entropy stream (modelling `Math.random`) otherwise. -/
structure Rng where
  stream : ℕ → ℚ
  pos : ℕ

/-- One generator call: yield the value at the current position and advance. -/
def Rng.next (r : Rng) : ℚ × Rng := (r.stream r.pos, ⟨r.stream, r.pos + 1⟩)

/-! ### Data model, `engine.ts` lines 19-47 and 62-79 -/

/-- The six instruments. -/
inductive Inst where
  | Q | W | E | R | T | Y
deriving DecidableEq

/-- `QDSHeader`.  `GRID` is kept as the raw string the parser stored
(the source writes `header.GRID = val as any`). -/
structure QDSHeader where
  BPM : ℚ
  BARS : ℤ
  GRID : Str
  SWING : ℚ
  SEED : Option ℤ
  humanizeMs : Option ℕ
deriving DecidableEq

/-- `TrackMod`: optional per-track grid override and step-count override. -/
structure TrackMod where
  grid : Option Str
  lenSteps : Option ℕ
deriving DecidableEq

/-- One parsed track line (the `lines` entries of `ParsedTracks`). -/
structure TrackLine where
  inst : Inst
  mods : TrackMod
  pattern : Str
deriving DecidableEq

/-- `HitToken`. -/
structure HitToken where
  inst : Inst
  velocity : ℕ
  prob : ℕ
  microStepsShift : ℤ
  rolls : ℕ
deriving DecidableEq

/-- `TimedEvent`. -/
structure TimedEvent where
  t : ℚ
  inst : Inst
  velocity : ℕ
deriving DecidableEq

/-- The sections map: name/track-list pairs in insertion order
(`Record<string, ParsedTracks>`; the `lines` field is inlined). -/
abbrev Sections := List (Str × List TrackLine)

/-- Property access `sections[name]`: first entry with the given key. -/
def alookup : Sections → Str → Option (List TrackLine)
  | [], _ => none
  | kv :: rest, n => if kv.1 = n then some kv.2 else alookup rest n

/-- `DEFAULT_HEADER`, `engine.ts` lines 72-77. -/
def DEFAULT_HEADER : QDSHeader :=
  { BPM := 92, BARS := 1, GRID := ("1/16").data, SWING := 50,
    SEED := none, humanizeMs := none }

/-- `DEFAULT_VEL = { x: 96, X: 115, g: 60 }` (line 79), as a lookup on the
marker character. -/
def DEFAULT_VEL (c : Char) : ℕ :=
  if c = 'x' then 96 else if c = 'X' then 115 else 60

/-! ### Character/string scanners shared by tokenizer and parser -/

/-- ASCII decimal digit test. -/
def isDigitC (c : Char) : Bool := ('0' ≤ c) && (c ≤ '9')

/-- JS `\s` on the characters that can actually occur here (ASCII
whitespace). -/
def isWsC (c : Char) : Bool :=
  c = ' ' || c = '\t' || c = '\n' || c = '\r' ||
  c = (Char.ofNat 11) || c = (Char.ofNat 12)

/-- Split a string into its span of leading decimal digits and the rest. -/
def spanDigits : Str → Str × Str
  | [] => ([], [])
  | c :: cs =>
    if isDigitC c then
      let p := spanDigits cs
      (c :: p.1, p.2)
    else ([], c :: cs)

/-- Numeric value of a digit string (`parseInt` on an all-digit string;
the empty string, which would be `NaN` in JS, is modelled as `0`). -/
def digitsToNat (ds : Str) : ℕ := ds.foldl (fun a c => a * 10 + (c.toNat - 48)) 0

/-- JS `String.prototype.trim` (ASCII whitespace). -/
def jsTrim (s : Str) : Str :=
  ((s.dropWhile isWsC).reverse.dropWhile isWsC).reverse

/-- JS `String.prototype.split` on a single-character separator:
`"".split(c)` is `[""]`, separators at the ends produce empty segments. -/
def splitOnC (sep : Char) : Str → List Str
  | [] => [[]]
  | c :: cs =>
    if c = sep then [] :: splitOnC sep cs
    else
      match splitOnC sep cs with
      | s :: rest => (c :: s) :: rest
      | [] => [[c]]

/-! ### Pattern tokenizer, `engine.ts` lines 299-341

`tokenizePattern` strips `|`, then walks the string producing one cell per
hit marker (`null` for `.` and `-`): a hit marker is `x`, `X`, `g` or
`r<digits>` (an `r` with no digits degrades to the token `x`), followed by
greedily consumed modifier suffixes matching
`(\^[-+]?\d+|\{[^}]*\}|\[p=\d+\]|-)`.  Unknown characters are skipped. -/

/-- Match the modifier alternative `\^[-+]?\d+` at the head of the string,
returning matched text and rest. -/
def matchShiftMod : Str → Option (Str × Str)
  | '^' :: cs =>
    let p : Str × Str :=
      match cs with
      | c :: rest => if c = '+' || c = '-' then ([c], rest) else ([], c :: rest)
      | [] => ([], [])
    match spanDigits p.2 with
    | ([], _) => none
    | (d :: ds, rest) => some ('^' :: (p.1 ++ d :: ds), rest)
  | _ => none

/-- Match the modifier alternative `\{[^}]*\}` at the head of the string. -/
def matchBraceMod : Str → Option (Str × Str)
  | '{' :: cs =>
    let p := (cs.takeWhile (fun c => c ≠ '}'), cs.dropWhile (fun c => c ≠ '}'))
    match p.2 with
    | '}' :: rest => some ('{' :: p.1 ++ ['}'], rest)
    | _ => none
  | _ => none

/-- Match the modifier alternative `\[p=\d+\]` (case-sensitive, as in the
tokenizer's regex which carries no `i` flag) at the head of the string. -/
def matchProbMod : Str → Option (Str × Str)
  | '[' :: 'p' :: '=' :: cs =>
    match spanDigits cs with
    | (d :: ds, ']' :: rest) => some ('[' :: 'p' :: '=' :: ((d :: ds) ++ [']']), rest)
    | _ => none
  | _ => none

/-- Match one modifier suffix
`(\^[-+]?\d+|\{[^}]*\}|\[p=\d+\]|-)` at the head of the string. -/
def matchMod (cs : Str) : Option (Str × Str) :=
  match matchShiftMod cs with
  | some r => some r
  | none =>
    match matchBraceMod cs with
    | some r => some r
    | none =>
      match matchProbMod cs with
      | some r => some r
      | none =>
        match cs with
        | '-' :: rest => some (['-'], rest)
        | _ => none

/-- Greedily consume modifier suffixes (the `while` loop of the tokenizer);
fuel-driven, every successful match consumes at least one character. -/
def modsLoop : ℕ → Str → Str × Str
  | 0, cs => ([], cs)
  | fuel + 1, cs =>
    match matchMod cs with
    | none => ([], cs)
    | some (m, rest) =>
      let p := modsLoop fuel rest
      (m ++ p.1, p.2)

/-- The tokenizer's main scan (fuel-driven; each produced cell or skipped
character consumes at least one input character). -/
def tokenizeGo : ℕ → Str → List (Option Str)
  | 0, _ => []
  | _ + 1, [] => []
  | fuel + 1, c :: cs =>
    if c = '.' then none :: tokenizeGo fuel cs
    else if c = '-' then none :: tokenizeGo fuel cs
    else if c = 'x' || c = 'X' || c = 'g' || c = 'r' then
      let hp : Str × Str :=
        if c = 'r' then
          match spanDigits cs with
          | ([], _) => (['x'], cs)
          | (d :: ds, r) => ('r' :: d :: ds, r)
        else ([c], cs)
      let mp := modsLoop hp.2.length hp.2
      some (hp.1 ++ mp.1) :: tokenizeGo fuel mp.2
    else tokenizeGo fuel cs

/-- `tokenizePattern`, `engine.ts` line 299. -/
def tokenizePattern (p : Str) : List (Option Str) :=
  let cleaned := p.filter (fun c => c ≠ '|')
  tokenizeGo cleaned.length cleaned

/-! ### Cell expander, `engine.ts` lines 343-382 -/

/-- The head match `^(x|X|g|r\d+)` of `expandCell`. -/
def cellHead : Str → Option Str
  | 'x' :: _ => some ['x']
  | 'X' :: _ => some ['X']
  | 'g' :: _ => some ['g']
  | 'r' :: cs =>
    match spanDigits cs with
    | ([], _) => none
    | (d :: ds, _) => some ('r' :: d :: ds)
  | _ => none

/-- First match of `\^([+-]?\d+)` anywhere in the string (the regex search
`mods.match(/\^([+-]?\d+)/)` with leftmost-match semantics). -/
def findShift : Str → Option ℤ
  | [] => none
  | '^' :: cs =>
    let p : Str × Str :=
      match cs with
      | c :: rest => if c = '+' || c = '-' then ([c], rest) else ([], c :: rest)
      | [] => ([], [])
    (match spanDigits p.2 with
     | ([], _) => findShift cs
     | (d :: ds, _) =>
       some (if p.1 = ['-'] then -(digitsToNat (d :: ds) : ℤ) else (digitsToNat (d :: ds) : ℤ)))
  | _ :: cs => findShift cs

/-- First match of `\[p=(\d+)\]` (case-insensitive `p`, the `i` flag of
`engine.ts` line 360) anywhere in the string. -/
def findProb : Str → Option ℕ
  | '[' :: c :: '=' :: cs =>
    if c = 'p' || c = 'P' then
      match spanDigits cs with
      | (d :: ds, ']' :: _) => some (digitsToNat (d :: ds))
      | _ => findProb (c :: '=' :: cs)
    else findProb (c :: '=' :: cs)
  | _ :: cs => findProb cs
  | [] => none

/-- Match `vel\s*=\s*(\d+)` (case-insensitive) at the head of the string. -/
def velMatchAt : Str → Option ℕ
  | v :: e :: l :: rest =>
    if (v.toLower = 'v') && (e.toLower = 'e') && (l.toLower = 'l') then
      match (rest.dropWhile isWsC) with
      | '=' :: r2 =>
        match spanDigits (r2.dropWhile isWsC) with
        | (d :: ds, _) => some (digitsToNat (d :: ds))
        | _ => none
      | _ => none
    else none
  | _ => none

/-- Last position in a brace block's content where `vel\s*=\s*(\d+)`
matches (the greedy leading `[^}]*` of the source regex backtracks from
the right, so the rightmost occurrence wins). -/
def velInContentLast : Str → Option ℕ
  | [] => none
  | c :: cs =>
    match velInContentLast cs with
    | some n => some n
    | none => velMatchAt (c :: cs)

/-- First match of `\{[^}]*vel\s*=\s*(\d+)[^}]*\}` (case-insensitive)
anywhere in the string: leftmost `{` whose block (up to the first `}`)
contains a `vel=<digits>` assignment. -/
def findVel : Str → Option ℕ
  | [] => none
  | '{' :: cs =>
    (match cs.dropWhile (fun c => c ≠ '}') with
     | '}' :: _ =>
       match velInContentLast (cs.takeWhile (fun c => c ≠ '}')) with
       | some n => some n
       | none => findVel cs
     | _ => findVel cs)
  | _ :: cs => findVel cs

/-- The modifier-suffix slice `cell.slice(head.length)` of a cell. -/
def cellMods (cell : Str) : Str :=
  match cellHead cell with
  | some h => cell.drop h.length
  | none => []

/-- Micro-step shift extracted from a cell (default `0`). -/
def cellMicro (cell : Str) : ℤ :=
  let mods := cellMods cell
  if mods = [] then 0 else (findShift mods).getD 0

/-- Probability extracted from a cell, clamped to `[0,100]`
(`Math.max(0, Math.min(100, parseInt(...)))`; default `100`). -/
def cellProb (cell : Str) : ℕ :=
  let mods := cellMods cell
  if mods = [] then 100
  else
    match findProb mods with
    | some p => max 0 (min 100 p)
    | none => 100

/-- Base velocity of a cell from its marker kind (`DEFAULT_VEL`; roll
markers use the normal-hit default). -/
def cellVel0 (cell : Str) : ℕ :=
  match cellHead cell with
  | some ('r' :: _) => 96
  | some (c :: _) => DEFAULT_VEL c
  | _ => 96

/-- Velocity of a cell after the `{...vel=N...}` override, clamped to
`[0,127]` (`Math.max(0, Math.min(127, parseInt(...)))`). -/
def cellVel (cell : Str) : ℕ :=
  let mods := cellMods cell
  if mods = [] then cellVel0 cell
  else
    match findVel mods with
    | some v => max 0 (min 127 v)
    | none => cellVel0 cell

/-- Roll count of a cell (`parseInt(head.slice(1))` for an `r` head,
else `0`). -/
def cellRolls (cell : Str) : ℕ :=
  match cellHead cell with
  | some ('r' :: ds) => digitsToNat ds
  | _ => 0

/-- `expandCell`, `engine.ts` lines 343-382.  The guard
`if (rolls && rolls > 1)` is `2 ≤ rolls`; the `i`-th sub-hit's shift adds
`Math.round((i * 4) / Math.max(1, rolls))`. -/
def expandCell (inst : Inst) (cell : Option Str) : List HitToken :=
  match cell with
  | none => []
  | some cell =>
    match cellHead cell with
    | none => []
    | some _ =>
      let rolls := cellRolls cell
      if 2 ≤ rolls then
        (List.range rolls).map (fun (i : ℕ) =>
          { inst := inst, velocity := cellVel cell, prob := cellProb cell,
            microStepsShift :=
              cellMicro cell + jsRound ((i : ℚ) * 4 / ((max 1 rolls : ℕ) : ℚ)),
            rolls := rolls })
      else
        [{ inst := inst, velocity := cellVel cell, prob := cellProb cell,
           microStepsShift := cellMicro cell, rolls := 0 }]

/-! ### Grid/tempo model, `engine.ts` lines 269-297 -/

/-- `parseInt(grid.split("/")[1], 10)`: the numeric value of the segment
between the first and second `/` of the grid string (`0` models the `NaN`
of a grid with no such digits, which no claim exercises). -/
def gridDenom (g : Str) : ℕ :=
  match splitOnC '/' g with
  | _ :: seg :: _ => digitsToNat (spanDigits seg).1
  | _ => 0

/-- `stepsPerBar`: `(denom / 4) * 4` in JS floats, which is exactly the
denominator. -/
def stepsPerBar (g : Str) : ℕ := gridDenom g

/-- `stepMs`: `(60000 / bpm) / (denom / 4)`. -/
def stepMs (g : Str) (bpm : ℚ) : ℚ :=
  (60000 / bpm) / ((gridDenom g : ℚ) / 4)

/-- `barMs = stepMs * stepsPerBar`. -/
def barMs (g : Str) (bpm : ℚ) : ℚ := stepMs g bpm * (stepsPerBar g : ℚ)

/-- `swingOffsetMs`, `engine.ts` lines 286-297: odd steps are delayed by
`((swing-50)/50) * (stepMs * 0.5)` when `swing > 50`. -/
def swingOffsetMs (stepIndex : ℕ) (sMs : ℚ) (swing : ℚ) : ℚ :=
  if swing ≤ 50 then 0
  else if stepIndex % 2 = 1 then ((swing - 50) / 50) * (sMs * (1 / 2))
  else 0

/-! ### Compiler, `engine.ts` lines 190-267 -/

/-- The probability gate of `engine.ts` line 237,
`if (h.prob < 100 && this.rng() * 100 > h.prob) continue;`:
returns whether the hit survives together with the generator state.  The
`&&` short-circuits, so no value is drawn when `prob` is `100`. -/
def gateStep (rng : Rng) (prob : ℕ) : Bool × Rng :=
  if prob < 100 then
    let p := rng.next
    (!(decide ((prob : ℚ) < p.1 * 100)), p.2)
  else (true, rng)

/-- The humanize jitter of `engine.ts` lines 238-240,
`header.humanizeMs ? (this.rng() * 2 - 1) * header.humanizeMs : 0`
(JS truthiness: no draw when the magnitude is absent or `0`). -/
def humanStep (humanizeMs : Option ℕ) (rng : Rng) : ℚ × Rng :=
  match humanizeMs with
  | some m =>
    if m ≠ 0 then
      let p := rng.next
      ((p.1 * 2 - 1) * (m : ℚ), p.2)
    else (0, rng)
  | none => (0, rng)

/-- Processing of one `HitToken` inside the step loop (`engine.ts` lines
236-250): probability gate, humanize draw, event emission at
`base + microStepsShift * microMs + human` where `base` is
`tCursor + bar*stepsPerBar*stepMs + s*stepMs + swingOffset`. -/
def processHit (humanizeMs : Option ℕ) (base microMs : ℚ)
    (st : List TimedEvent × Rng) (h : HitToken) : List TimedEvent × Rng :=
  let g := gateStep st.2 h.prob
  if g.1 then
    let hu := humanStep humanizeMs g.2
    (st.1 ++ [{ t := base + (h.microStepsShift : ℚ) * microMs + hu.1,
                inst := h.inst, velocity := h.velocity }], hu.2)
  else (st.1, g.2)

/-- The per-line rendering context: everything the step loop reads. -/
structure LineCtx where
  hum : Option ℕ
  swing : ℚ
  inst : Inst
  tCursor : ℚ
  stepMs : ℚ
  microMs : ℚ
  spb : ℕ
  cells : List (Option Str)

/-- JS array indexing `cells[idx]` on the cell list: `undefined` out of
range, which the `if (!cell)` check treats like an empty cell. -/
def cellAt : List (Option Str) → ℕ → Option Str
  | [], _ => none
  | c :: _, 0 => c
  | _ :: cs, n + 1 => cellAt cs n

/-- One step of the inner loop (`engine.ts` lines 223-251) at bar `bar`,
step `s` (the caller guarantees `bar * spb + s < cells.length`): fetch the
cell, skip empty cells, otherwise expand and process every hit. -/
def processStep (ctx : LineCtx) (bar s : ℕ)
    (st : List TimedEvent × Rng) : List TimedEvent × Rng :=
  match cellAt ctx.cells (bar * ctx.spb + s) with
  | none => st
  | some cell =>
    let swingOffset := swingOffsetMs s ctx.stepMs ctx.swing
    let base := ctx.tCursor + ((bar * ctx.spb : ℕ) : ℚ) * ctx.stepMs
      + (s : ℚ) * ctx.stepMs + swingOffset
    (expandCell ctx.inst (some cell)).foldl (processHit ctx.hum base ctx.microMs) st

/-- The inner `for (s = 0; s < stepsPerBar; s++)` loop with its
`if (idx >= totalSteps) break;`, driven by the remaining step count. -/
def stepLoop (ctx : LineCtx) (bar s : ℕ) :
    ℕ → List TimedEvent × Rng → List TimedEvent × Rng
  | 0, st => st
  | fuel + 1, st =>
    if ctx.cells.length ≤ bar * ctx.spb + s then st
    else stepLoop ctx bar (s + 1) fuel (processStep ctx bar s st)

/-- The outer `for (bar = 0; bar < barsToUse; bar++)` loop. -/
def barLoop (ctx : LineCtx) (bar : ℕ) :
    ℕ → List TimedEvent × Rng → List TimedEvent × Rng
  | 0, st => st
  | n + 1, st => barLoop ctx (bar + 1) n (stepLoop ctx bar 0 ctx.spb st)

/-- Effective grid of a track line: `line.mods.grid || header.GRID`. -/
def effGrid (hdr : QDSHeader) (line : TrackLine) : Str :=
  line.mods.grid.getD hdr.GRID

/-- Effective steps per bar:
`line.mods.lenSteps || this.stepsPerBar(grid)` (JS `||`: a stored `0` is
falsy and falls back to the grid). -/
def effSpb (hdr : QDSHeader) (line : TrackLine) : ℕ :=
  match line.mods.lenSteps with
  | some n => if n = 0 then stepsPerBar (effGrid hdr line) else n
  | none => stepsPerBar (effGrid hdr line)

/-- `Math.ceil(a / b)` for natural `a` and positive natural `b`
(`b = 0`, an infinity in JS, is outside every claim). -/
def ceilDivN (a b : ℕ) : ℕ := (a + b - 1) / b

/-- The rendering context of one track line (`engine.ts` lines 212-220). -/
def lineCtx (hdr : QDSHeader) (tCursor : ℚ) (line : TrackLine) : LineCtx :=
  { hum := hdr.humanizeMs, swing := hdr.SWING, inst := line.inst,
    tCursor := tCursor,
    stepMs := stepMs (effGrid hdr line) hdr.BPM,
    microMs := stepMs (effGrid hdr line) hdr.BPM / 4,
    spb := effSpb hdr line,
    cells := tokenizePattern line.pattern }

/-- `barsToUse = Math.max(Math.ceil(totalSteps / stepsPerBar) || 1, BARS)`
(`engine.ts` lines 219-220); the `|| 1` is the `max _ 1`, and a negative
`BARS` never exceeds `barsInLine ≥ 1`, hence the `Int.toNat`. -/
def lineBarsToUse (hdr : QDSHeader) (line : TrackLine) : ℕ :=
  max (max (ceilDivN (tokenizePattern line.pattern).length (effSpb hdr line)) 1)
    hdr.BARS.toNat

/-- Rendering of one track line (`engine.ts` lines 211-252). -/
def renderLine (hdr : QDSHeader) (tCursor : ℚ)
    (st : List TimedEvent × Rng) (line : TrackLine) : List TimedEvent × Rng :=
  barLoop (lineCtx hdr tCursor line) 0 (lineBarsToUse hdr line) st

/-- Ordering of events by time, the comparator `(a, b) => a.t - b.t`. -/
def leT (a b : TimedEvent) : Prop := a.t ≤ b.t

instance : DecidableRel leT := fun a b => inferInstanceAs (Decidable (a.t ≤ b.t))

instance : IsTotal TimedEvent leT := ⟨fun a b => le_total a.t b.t⟩

instance : IsTrans TimedEvent leT := ⟨fun _ _ _ h1 h2 => le_trans h1 h2⟩

/-- The compiler's walking state: emitted events, time cursor, generator. -/
structure CState where
  events : List TimedEvent
  cursor : ℚ
  rng : Rng

/-- Processing of one section name from the sequence (`engine.ts` lines
206-261): resolve the section (`continue` on a miss, advancing nothing);
render every track line; sort that section's events by time (JS
`Array.prototype.sort` is stable, as is insertion sort); append them and
advance the cursor by `BARS * barMs(header.GRID, header.BPM)`. -/
def processSection (hdr : QDSHeader) (sections : Sections)
    (st : CState) (secName : Str) : CState :=
  match alookup sections secName with
  | none => st
  | some sec =>
    let p := sec.foldl (renderLine hdr st.cursor) ([], st.rng)
    { events := st.events ++ List.insertionSort leT p.1,
      cursor := st.cursor + (hdr.BARS : ℚ) * barMs hdr.GRID hdr.BPM,
      rng := p.2 }

/-- Whether a string is a canonical array-index property name
(an ECMAScript integer index: all digits, no leading zero except `"0"`
itself, value below `2^32 - 1`). -/
def isArrayIndexName (s : Str) : Bool :=
  (!s.isEmpty) && s.all isDigitC &&
    (s = ['0'] || s.headD '0' ≠ '0') && digitsToNat s < 4294967295

/-- Ordering of array-index names by numeric value. -/
def leIdx (a b : Str) : Prop := digitsToNat a ≤ digitsToNat b

instance : DecidableRel leIdx := fun a b =>
  inferInstanceAs (Decidable (digitsToNat a ≤ digitsToNat b))

instance : IsTotal Str leIdx := ⟨fun a b => Nat.le_total (digitsToNat a) (digitsToNat b)⟩

instance : IsTrans Str leIdx := ⟨fun _ _ _ h1 h2 => Nat.le_trans h1 h2⟩

/-- `Object.keys(sections)`: per ECMAScript `OrdinaryOwnPropertyKeys`,
canonical array-index names first in ascending numeric order, then the
remaining string keys in insertion order. -/
def objectKeys (sections : Sections) : List Str :=
  let ks := sections.map Prod.fst
  List.insertionSort leIdx (ks.filter isArrayIndexName)
    ++ ks.filter (fun k => !(isArrayIndexName k))

/-- The minimum timestamp `Math.min(...events.map(e => e.t))` of a
non-empty event list (`0` for the empty list, where the source skips the
computation). -/
def minT : List TimedEvent → ℚ
  | [] => 0
  | e :: es => es.foldl (fun a x => min a x.t) e.t

/-- The section sequence to walk,
`order && order.length ? order : Object.keys(sections)` (an absent order
and an empty order both fall back to `Object.keys`). -/
def seqOf (sections : Sections) (order : Option (List Str)) : List Str :=
  match order with
  | some l => if l.isEmpty then objectKeys sections else l
  | none => objectKeys sections

/-- `QDSCompiler.compile`, `engine.ts` lines 197-267, with the generator
threaded explicitly: walk the section sequence, then normalize the
minimum timestamp to zero (`if (minT !== 0) ...`).  Returns the event
list and the generator state the compiler instance is left with. -/
def compileRun (hdr : QDSHeader) (rng : Rng) (sections : Sections)
    (order : Option (List Str)) : List TimedEvent × Rng :=
  let seqSections := seqOf sections order
  let final := seqSections.foldl (processSection hdr sections)
    { events := [], cursor := 0, rng := rng }
  let m := minT final.events
  (if m ≠ 0 then final.events.map (fun e => { e with t := e.t - m }) else final.events,
   final.rng)

/-- A `QDSCompiler` instance: the header it was constructed with and the
generator it holds.  The generator is a mutable instance field in the
source; it is represented here as explicit state returned by `compile`. -/
structure QDSCompiler where
  header : QDSHeader
  rng : Rng

/-- The constructor `new QDSCompiler(header)` (`engine.ts` lines 191-195):
`rng = mulberry32(SEED)` when a seed is present, `Math.random` (the
ambient entropy stream `envRandom`) otherwise. -/
def mkCompiler (header : QDSHeader) (envRandom : ℕ → ℚ) : QDSCompiler :=
  { header := header,
    rng :=
      match header.SEED with
      | some s => { stream := mulberry32 s, pos := 0 }
      | none => { stream := envRandom, pos := 0 } }

/-- A `compile` call on an instance: runs on the instance's current
generator state and leaves the advanced state in the instance. -/
def QDSCompiler.compile (c : QDSCompiler) (sections : Sections)
    (order : Option (List Str)) : List TimedEvent × QDSCompiler :=
  let p := compileRun c.header c.rng sections order
  (p.1, { header := c.header, rng := p.2 })

/-! ### Parser, `engine.ts` lines 81-187

Each line is classified against the recognized forms in the source's
priority order (comment/blank, humanize, `ORDER:`, `[Section]`,
header key/value, track line); any other line is `unknown` and is
dropped by the fold. -/

/-- Strip a case-insensitive literal prefix, returning the rest. -/
def stripCI : Str → Str → Option Str
  | [], s => some s
  | _ :: _, [] => none
  | p :: ps, c :: cs => if c.toLower = p.toLower then stripCI ps cs else none

/-- JS `parseInt(s, 10)` on the forms the claims exercise: optional
whitespace, optional sign, leading digits (`0` models the `NaN` of a
digit-free string). -/
def jsParseIntD (s : Str) : ℤ :=
  let s1 := s.dropWhile isWsC
  match s1 with
  | '-' :: rest => -(digitsToNat (spanDigits rest).1 : ℤ)
  | '+' :: rest => (digitsToNat (spanDigits rest).1 : ℤ)
  | _ => (digitsToNat (spanDigits s1).1 : ℤ)

/-- JS `parseFloat(s)` on the forms the claims exercise: optional
whitespace, optional sign, digits, optional fractional digits
(`0` models `NaN`; exponents never occur in the scores considered). -/
def jsParseFloatD (s : Str) : ℚ :=
  let core : Str → ℚ := fun t =>
    let ip := spanDigits t
    match ip.2 with
    | '.' :: rest =>
      let fp := spanDigits rest
      (digitsToNat ip.1 : ℚ) + (digitsToNat fp.1 : ℚ) / ((10 : ℚ) ^ fp.1.length)
    | _ => (digitsToNat ip.1 : ℚ)
  let s1 := s.dropWhile isWsC
  match s1 with
  | '-' :: rest => -(core rest)
  | '+' :: rest => core rest
  | _ => core s1

/-- The five recognized header keys. -/
inductive HKey where
  | BPM | BARS | GRID | SWING | SEED
deriving DecidableEq

/-- Structured result of classifying one (already raw) input line. -/
inductive PLine where
  | skip
  | humanize (n : ℕ)
  | orderLine (rhs : Str)
  | sectionLine (rawName : Str)
  | kv (key : HKey) (val : Str)
  | trackLine (inst : Inst) (modStr : Option Str) (patRaw : Str)
  | unknown
deriving DecidableEq

/-- `^%humanize=\s*±?(\d+)ms$` (case-insensitive), `engine.ts` line 97. -/
def matchHumanize (line : Str) : Option ℕ :=
  match line with
  | '%' :: rest =>
    (match stripCI ("humanize").data rest with
     | some ('=' :: r2) =>
       let r3 := r2.dropWhile isWsC
       let r4 : Str := match r3 with
         | '±' :: t => t
         | _ => r3
       (match spanDigits r4 with
        | (d :: ds, r5) =>
          if stripCI ("ms").data r5 = some [] then some (digitsToNat (d :: ds)) else none
        | _ => none)
     | _ => none)
  | _ => none

/-- Strip a case-sensitive literal prefix, returning the rest. -/
def stripLit : Str → Str → Option Str
  | [], s => some s
  | _ :: _, [] => none
  | p :: ps, c :: cs => if c = p then stripLit ps cs else none

/-- `/^ORDER\s*:/.test(line)` (case-sensitive: that regex has no `i`
flag), `engine.ts` line 104. -/
def isOrderLine (line : Str) : Bool :=
  match stripLit ("ORDER").data line with
  | some r => (r.dropWhile isWsC).headD ' ' == ':'
  | none => false

/-- `line.split(":")[1]`: the segment between the first and second colon
(used as the `ORDER` right-hand side; a colon exists whenever
`isOrderLine` holds). -/
def orderRhs (line : Str) : Str :=
  match splitOnC ':' line with
  | _ :: seg :: _ => seg
  | _ => []

/-- In a reversed entry, consume `x`/`X` followed by at least one
whitespace character and any further whitespace, returning the reversed
name part. -/
def revNameAfterX : Str → Option Str
  | x :: rest =>
    if x = 'x' || x = 'X' then
      match rest with
      | w :: _ => if isWsC w then some (rest.dropWhile isWsC) else none
      | [] => none
    else none
  | [] => none

/-- One `ORDER` entry against `^(.*?)\s+x(\d+|∞)$` (the `i` flag admits
`X`), `engine.ts` line 112: the raw name, and `none` for `∞` or `some n`
for a digit count.  The lazy group with the anchored tail is equivalent
to reading the suffix `<ws>+ x (<digits>|∞)` off the right end. -/
def parseOrderEntry (p : Str) : Option (Str × Option ℕ) :=
  let rev := p.reverse
  match rev with
  | '∞' :: tail =>
    (match revNameAfterX tail with
     | some revName => some (revName.reverse, none)
     | none => none)
  | _ =>
    match spanDigits rev with
    | ([], _) => none
    | (d :: ds, tail) =>
      match revNameAfterX tail with
      | some revName => some (revName.reverse, some (digitsToNat (d :: ds).reverse))
      | none => none

/-- The trimmed, non-empty comma parts of an `ORDER` right-hand side
(`rhs.split(",").map(s => s.trim()).filter(Boolean)`). -/
def orderParts (rhs : Str) : List Str :=
  ((splitOnC ',' rhs).map jsTrim).filter (fun p => !p.isEmpty)

/-- Expansion of one `ORDER` part (`engine.ts` lines 111-122): a failed
match contributes nothing; `∞` contributes the name once; a count `n`
contributes the trimmed name `n` times. -/
def orderEntryExpand (p : Str) : List Str :=
  match parseOrderEntry p with
  | none => []
  | some (name, none) => [jsTrim name]
  | some (name, some n) => List.replicate n (jsTrim name)

/-- The expanded `ORDER` sequence of a right-hand side. -/
def expandOrder (rhs : Str) : List Str :=
  (orderParts rhs).flatMap orderEntryExpand

/-- `^\[(.+?)\]$`, `engine.ts` line 128: bracketed, non-empty raw
content (which may itself contain `]`, by backtracking up to the final
character). -/
def matchSection (line : Str) : Option Str :=
  match line with
  | '[' :: rest =>
    if rest.getLast? = some ']' && 2 ≤ rest.length then some rest.dropLast else none
  | _ => none

/-- `^(BPM|BARS|GRID|SWING|SEED)\s*:\s*(.+)$` (case-insensitive),
`engine.ts` line 136.  The value group combined with the handler's
`.trim()` is the trimmed text after the colon, which must be non-empty
for the regex to match. -/
def matchKv (line : Str) : Option (HKey × Str) :=
  let tryKey : Str → Option Str := fun kw =>
    match stripCI kw line with
    | some r =>
      (match (r.dropWhile isWsC) with
       | ':' :: after => if after.isEmpty then none else some after
       | _ => none)
    | none => none
  match tryKey ("BPM").data with
  | some after => some (HKey.BPM, after)
  | none =>
    match tryKey ("BARS").data with
    | some after => some (HKey.BARS, after)
    | none =>
      match tryKey ("GRID").data with
      | some after => some (HKey.GRID, after)
      | none =>
        match tryKey ("SWING").data with
        | some after => some (HKey.SWING, after)
        | none =>
          match tryKey ("SEED").data with
          | some after => some (HKey.SEED, after)
          | none => none

/-- The instrument letter class `([QWERTY])` with the `i` flag, already
upper-cased (`track[1].toUpperCase()`). -/
def instOfChar (c : Char) : Option Inst :=
  if c = 'Q' || c = 'q' then some Inst.Q
  else if c = 'W' || c = 'w' then some Inst.W
  else if c = 'E' || c = 'e' then some Inst.E
  else if c = 'R' || c = 'r' then some Inst.R
  else if c = 'T' || c = 't' then some Inst.T
  else if c = 'Y' || c = 'y' then some Inst.Y
  else none

/-- `^([QWERTY])(?:@([^:]+))?\s*:\s*(.+)$` (case-insensitive),
`engine.ts` line 161: instrument letter, optional `@` plus at least one
non-colon character, whitespace, colon, non-empty remainder. -/
def matchTrack (line : Str) : Option (Inst × Option Str × Str) :=
  match line with
  | c :: rest =>
    (match instOfChar c with
     | none => none
     | some inst =>
       let p : Option Str × Str :=
         match rest with
         | '@' :: r =>
           (match r.takeWhile (fun ch => ch ≠ ':') with
            | [] => (none, '@' :: r)
            | m => (some m, r.dropWhile (fun ch => ch ≠ ':')))
         | _ => (none, rest)
       match (p.2.dropWhile isWsC) with
       | ':' :: after => if after.isEmpty then none else some (inst, p.1, after)
       | _ => none)
  | [] => none

/-- Line classification in the source's priority order (`engine.ts`
lines 92-183): blank/comment, humanize, order, section, header
key/value, track; otherwise `unknown` ("ignore unknown line"). -/
def classify (raw : Str) : PLine :=
  let line := jsTrim raw
  if line.isEmpty then PLine.skip
  else if line.headD ' ' = '#' then PLine.skip
  else
    match matchHumanize line with
    | some n => PLine.humanize n
    | none =>
      if isOrderLine line then PLine.orderLine (orderRhs line)
      else
        match matchSection line with
        | some rawName => PLine.sectionLine rawName
        | none =>
          match matchKv line with
          | some (k, v) => PLine.kv k v
          | none =>
            match matchTrack line with
            | some (inst, modStr, patRaw) => PLine.trackLine inst modStr patRaw
            | none => PLine.unknown

/-- Parser state: header so far, sections in insertion order, current
section name, optional expanded order. -/
structure PState where
  header : QDSHeader
  sections : Sections
  currentSection : Str
  order : Option (List Str)
deriving DecidableEq

/-- Track-modifier parsing (`engine.ts` lines 167-175): comma-separated,
trimmed parts; a bare `\d+/\d+` shorthand, `GRID=<d>/<d>` and `LEN=<n>`
each overwrite their field (every test is applied, none is exclusive). -/
def applyTrackModPart (m : TrackMod) (p : Str) : TrackMod :=
  let isShorthand : Bool :=
    match spanDigits p with
    | (_ :: _, '/' :: r2) =>
      (match spanDigits r2 with
       | (_ :: _, []) => true
       | _ => false)
    | _ => false
  let m1 := if isShorthand then { m with grid := some p } else m
  let m2 :=
    match stripCI ("GRID").data p with
    | some r =>
      (match (r.dropWhile isWsC) with
       | '=' :: r2 =>
         (match spanDigits (r2.dropWhile isWsC) with
          | (d :: ds, '/' :: r3) =>
            (match spanDigits r3 with
             | (e :: es, []) => { m1 with grid := some ((d :: ds) ++ '/' :: e :: es) }
             | _ => m1)
          | _ => m1)
       | _ => m1)
    | none => m1
  match stripCI ("LEN").data p with
  | some r =>
    (match (r.dropWhile isWsC) with
     | '=' :: r2 =>
       (match spanDigits (r2.dropWhile isWsC) with
        | (d :: ds, []) => { m2 with lenSteps := some (digitsToNat (d :: ds)) }
        | _ => m2)
     | _ => m2)
  | none => m2

/-- `const mods: TrackMod = {...}` built from the `@` modifier string. -/
def parseTrackMods (modStr : Str) : TrackMod :=
  ((splitOnC ',' modStr).map jsTrim).foldl applyTrackModPart { grid := none, lenSteps := none }

/-- Append a track line to the named section, in place
(`sections[currentSection].lines.push(...)`). -/
def updateSection (secs : Sections) (name : Str) (tl : TrackLine) : Sections :=
  secs.map (fun kv => if kv.1 = name then (kv.1, kv.2 ++ [tl]) else kv)

/-- Apply one header key/value assignment (`engine.ts` lines 140-156). -/
def applyKv (hdr : QDSHeader) (k : HKey) (v : Str) : QDSHeader :=
  match k with
  | HKey.BPM => { hdr with BPM := jsParseFloatD v }
  | HKey.BARS => { hdr with BARS := jsParseIntD v }
  | HKey.GRID => { hdr with GRID := v }
  | HKey.SWING => { hdr with SWING := jsParseFloatD v }
  | HKey.SEED => { hdr with SEED := some (jsParseIntD v) }

/-- Apply one classified line to the parser state (the body of the
parse loop, `engine.ts` lines 92-183). -/
def applyLine (st : PState) (pl : PLine) : PState :=
  match pl with
  | PLine.skip => st
  | PLine.unknown => st
  | PLine.humanize n => { st with header := { st.header with humanizeMs := some n } }
  | PLine.orderLine rhs => { st with order := some (expandOrder rhs) }
  | PLine.sectionLine rawName =>
    let name := jsTrim rawName
    { st with
      currentSection := name,
      sections :=
        if (alookup st.sections name).isSome then st.sections
        else st.sections ++ [(name, [])] }
  | PLine.kv k v => { st with header := applyKv st.header k (jsTrim v) }
  | PLine.trackLine inst modStr patRaw =>
    let mods :=
      match modStr with
      | some ms => parseTrackMods ms
      | none => { grid := none, lenSteps := none }
    let pattern := patRaw.filter (fun ch => !(isWsC ch))
    let tl : TrackLine := { inst := inst, mods := mods, pattern := pattern }
    { st with sections := updateSection st.sections st.currentSection tl }

/-- One parse step: classify, then apply. -/
def stepLine (st : PState) (line : Str) : PState := applyLine st (classify line)

/-- The initial parser state (`engine.ts` lines 84-90): default header,
a `"Default"` section, no order. -/
def initPState : PState :=
  { header := DEFAULT_HEADER,
    sections := [(("Default").data, [])],
    currentSection := ("Default").data,
    order := none }

/-- `QDSParser.parse` restricted to an already split line list. -/
def parseLines (lines : List Str) : PState := lines.foldl stepLine initPState

/-- Tab replacement and `\r?\n` splitting of `engine.ts` line 83. -/
def splitLinesJS (src : Str) : List Str :=
  (splitOnC '\n' (src.flatMap (fun c => if c = '\t' then [' ', ' '] else [c]))).map
    (fun l => if l.getLast? = some '\r' then l.dropLast else l)

/-- `QDSParser.parse` on raw text. -/
def parse (src : Str) : PState := parseLines (splitLinesJS src)

/-- The per-call compile helper of `src/play.ts` (`compileFrom`, without
a header override): construct a fresh compiler from the parsed header
and compile the parsed sections and order. -/
def compileFrom (st : PState) (envRandom : ℕ → ℚ) : List TimedEvent × QDSCompiler :=
  (mkCompiler st.header envRandom).compile st.sections st.order

/-! ### Derived notions used only by the verification -/

/-- Step processing addressed by flat cell index: `processStep` at bar
`i / spb` and step `i % spb` (the decomposition the loops produce for
every index they visit). -/
def processIdx (ctx : LineCtx) (i : ℕ)
    (st : List TimedEvent × Rng) : List TimedEvent × Rng :=
  processStep ctx (i / ctx.spb) (i % ctx.spb) st

/-- The per-section event blocks the compiler appends: for each name of
the walked sequence, the (time-sorted) contribution of that section at
the state the walk has reached, the empty block for an unknown name. -/
def sectionBlocks (hdr : QDSHeader) (sections : Sections) :
    List Str → CState → List (List TimedEvent)
  | [], _ => []
  | name :: rest, st =>
    (match alookup sections name with
     | none => []
     | some sec =>
       List.insertionSort leT ((sec.foldl (renderLine hdr st.cursor) ([], st.rng)).1))
    :: sectionBlocks hdr sections rest (processSection hdr sections st name)

/-- Whether a classified line writes to the header (a header key/value
line or a humanize directive). -/
def touchesHeader : PLine → Bool
  | PLine.humanize _ => true
  | PLine.kv _ _ => true
  | _ => false

/-! ### Concrete fixtures for counterexamples and witnesses -/

/-- A zero ambient entropy stream (never drawn from in the fixtures that
use it, except where noted). -/
def env0 : ℕ → ℚ := fun _ => 0

/-- A generator over `env0` at position `0`. -/
def rng0 : Rng := { stream := env0, pos := 0 }

/-- A plain 120-BPM header: one bar of `1/16` (stepMs `125`, barMs
`2000`), no swing, no seed, no humanize. -/
def hdr120 : QDSHeader :=
  { BPM := 120, BARS := 1, GRID := ("1/16").data, SWING := 50,
    SEED := none, humanizeMs := none }

/-- Two sections: `A` holds a track of 17 rests and a hit on cell index
17 (overrunning the single header bar into the following bar), `B` holds
a hit on cell index 0. -/
def secsAB : Sections :=
  [(("A").data, [{ inst := Inst.Q, mods := { grid := none, lenSteps := none },
                   pattern := (".................x").data }]),
   (("B").data, [{ inst := Inst.W, mods := { grid := none, lenSteps := none },
                   pattern := ("x").data }])]

/-- `hdr120` with two bars. -/
def hdrBars2 : QDSHeader := { hdr120 with BARS := 2 }

/-- One section holding one single-cell track `x`. -/
def secsOneHit : Sections :=
  [(("A").data, [{ inst := Inst.Q, mods := { grid := none, lenSteps := none },
                   pattern := ("x").data }])]

/-- `hdr120` with seed `1`. -/
def hdrSeed1 : QDSHeader := { hdr120 with SEED := some 1 }

/-- One section holding one track whose single hit has probability 50. -/
def secsProb50 : Sections :=
  [(("A").data, [{ inst := Inst.Q, mods := { grid := none, lenSteps := none },
                   pattern := ("x[p=50]").data }])]

/-- A freshly constructed compiler for `hdrSeed1`. -/
def compilerSeed1 : QDSCompiler := mkCompiler hdrSeed1 env0

/-- A score whose `ORDER` entries all fail the entry grammar and whose
section names include the canonical array index `"3"`. -/
def linesNumSec : List Str :=
  [("BPM: 120").data, ("ORDER: nope").data, ("[3]").data, ("Q: x").data,
   ("[B]").data, ("W: x").data]

/-! ## Theorems -/

/-! ### General helper lemmas -/

theorem foldl_preserve {α σ : Type _} (f : σ → α → σ) (Q : σ → Prop) :
    ∀ (l : List α) (st : σ), Q st → (∀ s a, a ∈ l → Q s → Q (f s a)) →
      Q (l.foldl f st) := by
  intro l
  induction l with
  | nil => intro st h _; exact h
  | cons a as ih =>
    intro st h hstep
    exact ih _ (hstep st a (by simp) h) (fun s b hb hq => hstep s b (by simp [hb]) hq)

theorem jsRound_intCast (z : ℤ) : jsRound (z : ℚ) = z := by
  unfold jsRound
  rw [Int.floor_eq_iff]
  constructor
  · linarith
  · have : ((z + 1 : ℤ) : ℚ) = (z : ℚ) + 1 := by push_cast; ring
    linarith [this.ge]

/-! ### C5: section cursor advance -/

/-- C5.  For every section occurrence resolved from the sequence, the
time cursor advances by exactly `BARS * barMs(header.GRID, header.BPM)`,
whatever the section's tracks contain (their per-track grids, length
overrides and rendered bar counts never enter the formula). -/
theorem section_cursor_advance (hdr : QDSHeader) (sections : Sections)
    (st : CState) (name : Str) (tr : List TrackLine)
    (h : alookup sections name = some tr) :
    (processSection hdr sections st name).cursor =
      st.cursor + (hdr.BARS : ℚ) * barMs hdr.GRID hdr.BPM := by
  simp [processSection, h]

/-- Witness for `section_cursor_advance` at a concrete one-section score. -/
theorem section_cursor_advance_witness :
    (processSection hdr120 secsOneHit { events := [], cursor := 0, rng := rng0 }
        (("A").data)).cursor =
      (({ events := [], cursor := 0, rng := rng0 } : CState)).cursor +
        ((hdr120.BARS : ℚ)) * barMs hdr120.GRID hdr120.BPM :=
  section_cursor_advance hdr120 secsOneHit _ (("A").data)
    [{ inst := Inst.Q, mods := { grid := none, lenSteps := none },
       pattern := ("x").data }] (by decide)

/-! ### C4: the probability gate draws at most one value -/

/-- C4 (amended).  For every hit token the gate draws at most one
generator value: exactly one when the probability is below `100` (and the
token then survives iff the drawn value times `100` is at most the
probability), and none at all when the probability is `100` or more (the
token then always survives and the generator state is untouched). -/
theorem gate_draw_characterization (r : Rng) (p : ℕ) :
    (p < 100 →
      (gateStep r p).2.stream = r.stream ∧ (gateStep r p).2.pos = r.pos + 1 ∧
        ((gateStep r p).1 = true ↔ r.stream r.pos * 100 ≤ (p : ℚ))) ∧
    (100 ≤ p → gateStep r p = (true, r)) := by
  constructor
  · intro hp
    simp [gateStep, hp, Rng.next, not_lt]
  · intro hp
    rw [gateStep, if_neg (by omega)]

/-- Witness for `gate_draw_characterization` at probability `50` (stream
value `1/4`: one draw, survival) and probability `100` (no draw). -/
theorem gate_draw_characterization_witness :
    ((gateStep { stream := fun _ => 1 / 4, pos := 0 } 50).2.pos = 0 + 1 ∧
      (gateStep { stream := fun _ => 1 / 4, pos := 0 } 50).1 = true) ∧
    gateStep { stream := fun _ => 1 / 4, pos := 5 } 100 =
      (true, { stream := fun _ => 1 / 4, pos := 5 }) := by
  refine ⟨⟨?_, ?_⟩, ?_⟩
  · exact ((gate_draw_characterization { stream := fun _ => 1 / 4, pos := 0 } 50).1
      (by norm_num)).2.1
  · exact (((gate_draw_characterization { stream := fun _ => 1 / 4, pos := 0 } 50).1
      (by norm_num)).2.2).mpr (by norm_num)
  · exact (gate_draw_characterization { stream := fun _ => 1 / 4, pos := 5 } 100).2
      (by norm_num)

/-- C4 (counterexample).  A hit token with probability `100` draws no
generator value at all: the gate returns the generator unchanged, so its
position is not advanced by one as the claim requires. -/
theorem prob100_draws_nothing_cex :
    gateStep rng0 100 = (true, rng0) ∧
    (gateStep rng0 100).2.pos ≠ rng0.pos + 1 := by
  constructor
  · rfl
  · intro h
    simp [gateStep, rng0] at h

/-! ### C3: determinism and the generator's draw position -/

/-- C3 (amended).  With an explicit seed the compiler is deterministic
across instances: two freshly constructed compilers produce identical
results (events and final generator state) whatever ambient entropy
stream would have backed `Math.random`.  The draw position, however, is
held by the compiler instance, not by the compile invocation (see the
counterexample). -/
theorem seeded_compile_deterministic (hdr : QDSHeader) (s : ℤ)
    (hs : hdr.SEED = some s) (env1 env2 : ℕ → ℚ)
    (sections : Sections) (order : Option (List Str)) :
    (mkCompiler hdr env1).compile sections order =
      (mkCompiler hdr env2).compile sections order := by
  unfold mkCompiler
  rw [hs]

/-- Witness for `seeded_compile_deterministic` on the seeded fixture with
two different entropy streams. -/
theorem seeded_compile_deterministic_witness :
    (mkCompiler hdrSeed1 env0).compile secsProb50 none =
      (mkCompiler hdrSeed1 (fun _ => 1 / 2)).compile secsProb50 none :=
  seeded_compile_deterministic hdrSeed1 1 (by decide) env0 (fun _ => 1 / 2)
    secsProb50 none

/-! ### C8: garbage lines are dropped without any effect -/

/-- C8.  A line that matches none of the recognized forms is silently
dropped: inserting it anywhere in the line list leaves the parse result —
and therefore the compiled event list — unchanged. -/
theorem garbage_line_dropped (pre post : List Str) (g : Str)
    (h : classify g = PLine.unknown) :
    parseLines (pre ++ g :: post) = parseLines (pre ++ post) ∧
    ∀ env : ℕ → ℚ,
      compileFrom (parseLines (pre ++ g :: post)) env =
        compileFrom (parseLines (pre ++ post)) env := by
  have key : parseLines (pre ++ g :: post) = parseLines (pre ++ post) := by
    unfold parseLines
    rw [List.foldl_append, List.foldl_append, List.foldl_cons]
    have hg : stepLine (List.foldl stepLine initPState pre) g =
        List.foldl stepLine initPState pre := by
      unfold stepLine
      rw [h]
      rfl
    rw [hg]
  exact ⟨key, fun env => by rw [key]⟩

/-- Witness for `garbage_line_dropped`: a garbage line between two valid
track lines. -/
theorem garbage_line_dropped_witness :
    parseLines [("Q: x").data, ("!!garbage!!").data, ("W: x").data] =
      parseLines [("Q: x").data, ("W: x").data] :=
  (garbage_line_dropped [("Q: x").data] [("W: x").data] (("!!garbage!!").data)
    (by decide)).1

/-! ### C9: default header and the Default section -/

theorem applyLine_header_eq (st : PState) (pl : PLine)
    (h : touchesHeader pl = false) : (applyLine st pl).header = st.header := by
  cases pl <;> simp_all [applyLine, touchesHeader]

theorem alookup_append_isSome (secs more : Sections) (m : Str)
    (h : (alookup secs m).isSome = true) :
    (alookup (secs ++ more) m).isSome = true := by
  induction secs with
  | nil => simp [alookup] at h
  | cons kv rest ih =>
    by_cases hk : kv.1 = m
    · simp [alookup, hk]
    · simp only [alookup, if_neg hk, List.cons_append] at h ⊢
      exact ih h

theorem alookup_updateSection_isSome (secs : Sections) (n : Str)
    (tl : TrackLine) (m : Str) :
    (alookup (updateSection secs n tl) m).isSome = (alookup secs m).isSome := by
  induction secs with
  | nil => rfl
  | cons kv rest ih =>
    have hkey : (if kv.1 = n then (kv.1, kv.2 ++ [tl]) else kv).1 = kv.1 := by
      split <;> rfl
    simp only [updateSection, List.map_cons] at ih ⊢
    rw [alookup, alookup, hkey]
    by_cases hkm : kv.1 = m
    · simp [hkm]
    · simp only [if_neg hkm]
      exact ih

theorem applyLine_default_kept (st : PState) (pl : PLine)
    (h : (alookup st.sections (("Default").data)).isSome = true) :
    (alookup (applyLine st pl).sections (("Default").data)).isSome = true := by
  cases pl with
  | sectionLine rawName =>
    simp only [applyLine]
    split
    · exact h
    · exact alookup_append_isSome _ _ _ h
  | trackLine inst modStr patRaw =>
    simpa [applyLine, alookup_updateSection_isSome] using h
  | _ => simpa [applyLine] using h

/-- C9.  A score with no header key/value line and no humanize line
parses to the fixed default header (BPM 92, BARS 1, GRID 1/16, SWING 50,
no seed, no humanize), and every parse result contains a `"Default"`
section. -/
theorem default_header_and_default_section (lines : List Str) :
    ((∀ l ∈ lines, touchesHeader (classify l) = false) →
      (parseLines lines).header = DEFAULT_HEADER) ∧
    (alookup (parseLines lines).sections (("Default").data)).isSome = true := by
  constructor
  · intro h
    have : ∀ st : PState, (List.foldl stepLine st lines).header = st.header := by
      intro st
      have := foldl_preserve stepLine
        (fun s2 => s2.header = st.header) lines st rfl
        (fun s2 a ha hq => by
          show (applyLine s2 (classify a)).header = st.header
          rw [applyLine_header_eq s2 (classify a) (h a ha)]
          exact hq)
      exact this
    exact this initPState
  · exact foldl_preserve stepLine
      (fun s2 => (alookup s2.sections (("Default").data)).isSome = true) lines
      initPState (by decide)
      (fun s2 a _ hq => applyLine_default_kept s2 (classify a) hq)

/-- Witness for `default_header_and_default_section` on a concrete score
with an order line, a section line, a garbage line and a track line. -/
theorem default_header_and_default_section_witness :
    (parseLines [("ORDER: A x1").data, ("[B]").data, ("!junk").data,
        ("Q: x").data]).header = DEFAULT_HEADER ∧
    (alookup (parseLines [("ORDER: A x1").data, ("[B]").data, ("!junk").data,
        ("Q: x").data]).sections (("Default").data)).isSome = true :=
  ⟨(default_header_and_default_section _).1 (by decide),
   (default_header_and_default_section _).2⟩

/-! ### C10: an all-failing ORDER yields the empty order, which compiles
like an absent one -/

theorem flatMap_eq_nil_of_forall {α β : Type _} (L : List α) (f : α → List β)
    (h : ∀ p ∈ L, f p = []) : L.flatMap f = [] := by
  induction L with
  | nil => rfl
  | cons a as ih =>
    rw [List.flatMap_cons, h a (by simp), List.nil_append]
    exact ih (fun p hp => h p (by simp [hp]))

/-- C10 (amended).  An `ORDER` right-hand side whose comma parts all fail
the entry grammar (or all expand to zero occurrences) produces the empty
order sequence, and the compiler treats an empty order exactly as an
absent one: both play the sections of `Object.keys`, i.e. every parsed
section once, canonical array-index names first in ascending numeric
order and the remaining names in parse-encounter order. -/
theorem empty_order_like_absent (rhs : Str) (hdr : QDSHeader) (rng : Rng)
    (sections : Sections) :
    ((∀ p ∈ orderParts rhs, orderEntryExpand p = []) → expandOrder rhs = []) ∧
    compileRun hdr rng sections (some []) = compileRun hdr rng sections none := by
  constructor
  · intro h
    exact flatMap_eq_nil_of_forall _ _ h
  · rfl

/-- Witness for `empty_order_like_absent` on the right-hand side
`" junk, alsojunk "` and the one-hit fixture. -/
theorem empty_order_like_absent_witness :
    expandOrder ((" junk, alsojunk ").data) = [] ∧
    compileRun hdr120 rng0 secsOneHit (some []) =
      compileRun hdr120 rng0 secsOneHit none :=
  ⟨(empty_order_like_absent ((" junk, alsojunk ").data) hdr120 rng0 secsOneHit).1
      (by decide),
   (empty_order_like_absent ((" junk, alsojunk ").data) hdr120 rng0 secsOneHit).2⟩

/-! ### C6: roll expansion -/

theorem jsRound_zero : jsRound 0 = 0 := by
  simpa using jsRound_intCast 0

theorem jsRound_one : jsRound 1 = 1 := by
  simpa using jsRound_intCast 1

theorem jsRound_two : jsRound 2 = 2 := by
  simpa using jsRound_intCast 2

theorem jsRound_three : jsRound 3 = 3 := by
  simpa using jsRound_intCast 3

theorem expandCell_roll (inst : Inst) (cell : Str) (ds : Str)
    (h : cellHead cell = some ('r' :: ds)) (hN : 2 ≤ digitsToNat ds) :
    expandCell inst (some cell) =
      (List.range (digitsToNat ds)).map (fun (i : ℕ) =>
        { inst := inst, velocity := cellVel cell, prob := cellProb cell,
          microStepsShift :=
            cellMicro cell + jsRound ((i : ℚ) * 4 / ((digitsToNat ds : ℕ) : ℚ)),
          rolls := digitsToNat ds }) := by
  simp only [expandCell, cellRolls, h]
  rw [if_pos hN, Nat.max_eq_right (show 1 ≤ digitsToNat ds by omega)]

theorem expandCell_single (inst : Inst) (cell : Str) (c : Char)
    (h : cellHead cell = some [c]) :
    (expandCell inst (some cell)).length = 1 := by
  have hr : cellRolls cell = 0 := by
    rw [cellRolls, h]
    split
    · next ds heq =>
      simp only [Option.some.injEq, List.cons.injEq] at heq
      obtain ⟨-, h2⟩ := heq
      subst h2
      rfl
    · rfl
  simp [expandCell, h, hr]

/-- C6.  A roll cell with count `N ≥ 2` expands to exactly `N` hit tokens
sharing instrument, velocity and probability, the `i`-th shifted by the
base shift plus `round(i*4/N)` micro-steps; a bare `r4` yields shifts
`0, 1, 2, 3`; a non-roll marker yields exactly one hit token. -/
theorem roll_expansion (inst : Inst) (cell : Str) :
    (∀ ds : Str, cellHead cell = some ('r' :: ds) → 2 ≤ digitsToNat ds →
      expandCell inst (some cell) =
        (List.range (digitsToNat ds)).map (fun (i : ℕ) =>
          { inst := inst, velocity := cellVel cell, prob := cellProb cell,
            microStepsShift :=
              cellMicro cell + jsRound ((i : ℚ) * 4 / ((digitsToNat ds : ℕ) : ℚ)),
            rolls := digitsToNat ds })) ∧
    expandCell inst (some (("r4").data)) =
      [{ inst := inst, velocity := 96, prob := 100, microStepsShift := 0, rolls := 4 },
       { inst := inst, velocity := 96, prob := 100, microStepsShift := 1, rolls := 4 },
       { inst := inst, velocity := 96, prob := 100, microStepsShift := 2, rolls := 4 },
       { inst := inst, velocity := 96, prob := 100, microStepsShift := 3, rolls := 4 }] ∧
    (∀ c : Char, cellHead cell = some [c] →
      (expandCell inst (some cell)).length = 1) := by
  refine ⟨fun ds h hN => expandCell_roll inst cell ds h hN, ?_, ?_⟩
  · rw [expandCell_roll inst (("r4").data) ['4'] (by decide) (by decide)]
    have hd : digitsToNat ['4'] = 4 := by decide
    have hv : cellVel (("r4").data) = 96 := by decide
    have hp : cellProb (("r4").data) = 100 := by decide
    have hm : cellMicro (("r4").data) = 0 := by decide
    simp only [hd, hv, hp, hm]
    norm_num [List.range_succ]
    refine ⟨?_, ?_, ?_, ?_⟩ <;> norm_num [jsRound_zero, jsRound_one, jsRound_two, jsRound_three]
  · exact fun c hc => expandCell_single inst cell c hc

/-- Witness for `roll_expansion`: the roll case at `r3^2` and the
single-hit case at `X`. -/
theorem roll_expansion_witness :
    expandCell Inst.Q (some (("r3^2").data)) =
      (List.range (digitsToNat ['3'])).map (fun (i : ℕ) =>
        { inst := Inst.Q, velocity := cellVel (("r3^2").data),
          prob := cellProb (("r3^2").data),
          microStepsShift := cellMicro (("r3^2").data) +
            jsRound ((i : ℚ) * 4 / ((digitsToNat ['3'] : ℕ) : ℚ)),
          rolls := digitsToNat ['3'] }) ∧
    (expandCell Inst.Q (some (("X").data))).length = 1 :=
  ⟨(roll_expansion Inst.Q (("r3^2").data)).1 ['3'] (by decide) (by decide),
   (roll_expansion Inst.Q (("X").data)).2.2 'X' (by decide)⟩

/-! ### C7: velocity and probability bounds -/

theorem cellVel0_le (cell : Str) : cellVel0 cell ≤ 127 := by
  unfold cellVel0
  split
  · omega
  · unfold DEFAULT_VEL
    split_ifs <;> omega
  · omega

theorem cellVel_le (cell : Str) : cellVel cell ≤ 127 := by
  simp only [cellVel]
  split
  · exact cellVel0_le cell
  · split
    · omega
    · exact cellVel0_le cell

theorem cellProb_le (cell : Str) : cellProb cell ≤ 100 := by
  simp only [cellProb]
  split
  · omega
  · split <;> omega

theorem expandCell_tok_le (inst : Inst) (cell : Option Str) (tok : HitToken)
    (h : tok ∈ expandCell inst cell) :
    tok.velocity ≤ 127 ∧ tok.prob ≤ 100 := by
  cases cell with
  | none => simp [expandCell] at h
  | some c =>
    cases hh : cellHead c with
    | none =>
      simp only [expandCell, hh] at h
      simp at h
    | some hd =>
      simp only [expandCell, hh] at h
      by_cases hr : 2 ≤ cellRolls c
      · rw [if_pos hr] at h
        obtain ⟨i, -, rfl⟩ := List.mem_map.mp h
        exact ⟨cellVel_le c, cellProb_le c⟩
      · rw [if_neg hr] at h
        simp only [List.mem_singleton] at h
        subst h
        exact ⟨cellVel_le c, cellProb_le c⟩

theorem processHit_vel (hum : Option ℕ) (base microMs : ℚ)
    (st : List TimedEvent × Rng) (h : HitToken)
    (hst : ∀ e ∈ st.1, e.velocity ≤ 127) (hh : h.velocity ≤ 127) :
    ∀ e ∈ (processHit hum base microMs st h).1, e.velocity ≤ 127 := by
  intro e he
  simp only [processHit] at he
  split at he
  · simp only [List.mem_append, List.mem_singleton] at he
    rcases he with h1 | h1
    · exact hst e h1
    · subst h1
      exact hh
  · exact hst e he

theorem processStep_vel (ctx : LineCtx) (bar s : ℕ)
    (st : List TimedEvent × Rng)
    (hst : ∀ e ∈ st.1, e.velocity ≤ 127) :
    ∀ e ∈ (processStep ctx bar s st).1, e.velocity ≤ 127 := by
  unfold processStep
  cases hcell : cellAt ctx.cells (bar * ctx.spb + s) with
  | none => exact hst
  | some cell =>
    exact foldl_preserve _ (fun s2 => ∀ e ∈ s2.1, e.velocity ≤ 127) _ st hst
      (fun s2 a ha hq =>
        processHit_vel _ _ _ s2 a hq (expandCell_tok_le ctx.inst (some cell) a ha).1)

theorem stepLoop_vel (ctx : LineCtx) (bar : ℕ) :
    ∀ (fuel s : ℕ) (st : List TimedEvent × Rng),
      (∀ e ∈ st.1, e.velocity ≤ 127) →
      ∀ e ∈ (stepLoop ctx bar s fuel st).1, e.velocity ≤ 127 := by
  intro fuel
  induction fuel with
  | zero => intro s st hst; exact hst
  | succ fuel ih =>
    intro s st hst
    rw [stepLoop]
    split
    · exact hst
    · exact ih (s + 1) _ (processStep_vel ctx bar s st hst)

theorem barLoop_vel (ctx : LineCtx) :
    ∀ (n bar : ℕ) (st : List TimedEvent × Rng),
      (∀ e ∈ st.1, e.velocity ≤ 127) →
      ∀ e ∈ (barLoop ctx bar n st).1, e.velocity ≤ 127 := by
  intro n
  induction n with
  | zero => intro bar st hst; exact hst
  | succ n ih =>
    intro bar st hst
    rw [barLoop]
    exact ih (bar + 1) _ (stepLoop_vel ctx bar ctx.spb 0 st hst)

theorem renderLine_vel (hdr : QDSHeader) (tCursor : ℚ)
    (st : List TimedEvent × Rng) (line : TrackLine)
    (hst : ∀ e ∈ st.1, e.velocity ≤ 127) :
    ∀ e ∈ (renderLine hdr tCursor st line).1, e.velocity ≤ 127 :=
  barLoop_vel _ _ 0 st hst

theorem processSection_vel (hdr : QDSHeader) (sections : Sections)
    (st : CState) (name : Str)
    (hst : ∀ e ∈ st.events, e.velocity ≤ 127) :
    ∀ e ∈ (processSection hdr sections st name).events, e.velocity ≤ 127 := by
  unfold processSection
  cases hsec : alookup sections name with
  | none => exact hst
  | some sec =>
    intro e he
    simp only [List.mem_append] at he
    rcases he with h1 | h1
    · exact hst e h1
    · have hp : ∀ e2 ∈ (sec.foldl (renderLine hdr st.cursor) ([], st.rng)).1,
          e2.velocity ≤ 127 :=
        foldl_preserve _ (fun s2 => ∀ e2 ∈ s2.1, e2.velocity ≤ 127) sec
          ([], st.rng) (by simp)
          (fun s2 a _ hq => renderLine_vel hdr st.cursor s2 a hq)
      exact hp e ((List.perm_insertionSort leT _).mem_iff.mp h1)

/-- C7.  Every hit token produced by cell expansion has velocity in
`[0,127]` and probability in `[0,100]` (out-of-range modifier values are
clamped, defaults are in range), and hence every compiled event's
velocity lies in `[0,127]`. -/
theorem velocity_prob_bounds :
    (∀ (inst : Inst) (cell : Option Str) (tok : HitToken),
      tok ∈ expandCell inst cell →
        (0 ≤ tok.velocity ∧ tok.velocity ≤ 127) ∧
          (0 ≤ tok.prob ∧ tok.prob ≤ 100)) ∧
    (∀ (hdr : QDSHeader) (rng : Rng) (sections : Sections)
        (order : Option (List Str)) (e : TimedEvent),
      e ∈ (compileRun hdr rng sections order).1 →
        0 ≤ e.velocity ∧ e.velocity ≤ 127) := by
  constructor
  · intro inst cell tok h
    have := expandCell_tok_le inst cell tok h
    exact ⟨⟨Nat.zero_le _, this.1⟩, ⟨Nat.zero_le _, this.2⟩⟩
  · intro hdr rng sections order e he
    have hfinal : ∀ names : List Str,
        ∀ e2 ∈ (names.foldl (processSection hdr sections)
          { events := [], cursor := 0, rng := rng }).events,
        e2.velocity ≤ 127 :=
      fun names =>
        foldl_preserve _ (fun s2 => ∀ e2 ∈ s2.events, e2.velocity ≤ 127) names
          { events := [], cursor := 0, rng := rng } (by simp)
          (fun s2 a _ hq => processSection_vel hdr sections s2 a hq)
    refine ⟨Nat.zero_le _, ?_⟩
    simp only [compileRun] at he
    split at he
    · obtain ⟨e2, he2, rfl⟩ := List.mem_map.mp he
      exact hfinal _ e2 he2
    · exact hfinal _ e he

/-! ### C2: the bar loop visits exactly the pattern's cells -/

theorem stepLoop_eq_foldl (ctx : LineCtx) (hspb : 0 < ctx.spb) :
    ∀ (fuel bar s : ℕ) (st : List TimedEvent × Rng), s + fuel = ctx.spb →
      stepLoop ctx bar s fuel st =
        List.foldl (fun s2 i => processIdx ctx i s2) st
          (List.range' (bar * ctx.spb + s)
            (min fuel (ctx.cells.length - (bar * ctx.spb + s)))) := by
  intro fuel
  induction fuel with
  | zero =>
    intro bar s st _
    simp [stepLoop]
  | succ fuel ih =>
    intro bar s st h
    rw [stepLoop]
    by_cases hlen : ctx.cells.length ≤ bar * ctx.spb + s
    · rw [if_pos hlen]
      have h0 : min (fuel + 1) (ctx.cells.length - (bar * ctx.spb + s)) = 0 := by omega
      rw [h0]
      rfl
    · rw [if_neg hlen]
      have hs : s < ctx.spb := by omega
      have hstep : processStep ctx bar s st = processIdx ctx (bar * ctx.spb + s) st := by
        unfold processIdx
        have hdiv : (bar * ctx.spb + s) / ctx.spb = bar := by
          rw [Nat.mul_comm, Nat.mul_add_div hspb, Nat.div_eq_of_lt hs, Nat.add_zero]
        have hmod : (bar * ctx.spb + s) % ctx.spb = s := by
          rw [Nat.mul_comm, Nat.mul_add_mod, Nat.mod_eq_of_lt hs]
        rw [hdiv, hmod]
      have hmin : min (fuel + 1) (ctx.cells.length - (bar * ctx.spb + s)) =
          (min fuel (ctx.cells.length - (bar * ctx.spb + (s + 1)))) + 1 := by omega
      rw [hmin, List.range'_succ]
      simp only [List.foldl_cons]
      rw [hstep]
      have := ih bar (s + 1) (processIdx ctx (bar * ctx.spb + s) st) (by omega)
      rw [this]
      have harg : bar * ctx.spb + (s + 1) = bar * ctx.spb + s + 1 := by omega
      rw [harg]

theorem barLoop_eq_foldl (ctx : LineCtx) (hspb : 0 < ctx.spb) :
    ∀ (n bar : ℕ) (st : List TimedEvent × Rng),
      barLoop ctx bar n st =
        List.foldl (fun s2 i => processIdx ctx i s2) st
          (List.range' (bar * ctx.spb)
            (min (n * ctx.spb) (ctx.cells.length - bar * ctx.spb))) := by
  intro n
  induction n with
  | zero =>
    intro bar st
    simp [barLoop]
  | succ n ih =>
    intro bar st
    rw [barLoop, stepLoop_eq_foldl ctx hspb ctx.spb bar 0 st (by omega), ih (bar + 1)]
    rw [← List.foldl_append]
    congr 1
    have hexp : (bar + 1) * ctx.spb = bar * ctx.spb + ctx.spb := by ring
    by_cases hc : ctx.cells.length ≤ bar * ctx.spb + ctx.spb
    · have h2 : min (n * ctx.spb) (ctx.cells.length - (bar + 1) * ctx.spb) = 0 := by
        rw [hexp]
        have : 0 ≤ n * ctx.spb := Nat.zero_le _
        omega
      have h1 : min ctx.spb (ctx.cells.length - (bar * ctx.spb + 0)) =
          min ((n + 1) * ctx.spb) (ctx.cells.length - bar * ctx.spb) := by
        have h3 : (n + 1) * ctx.spb = n * ctx.spb + ctx.spb := by ring
        omega
      rw [h2, h1]
      simp
    · have h1 : min ctx.spb (ctx.cells.length - (bar * ctx.spb + 0)) = ctx.spb := by omega
      have h2 : min ((n + 1) * ctx.spb) (ctx.cells.length - bar * ctx.spb) =
          min (n * ctx.spb) (ctx.cells.length - (bar + 1) * ctx.spb) + ctx.spb := by
        have h3 : (n + 1) * ctx.spb = n * ctx.spb + ctx.spb := by ring
        rw [hexp] at *
        omega
      rw [h1, h2]
      have happ := List.range'_append (bar * ctx.spb) ctx.spb
        (min (n * ctx.spb) (ctx.cells.length - (bar + 1) * ctx.spb)) 1
      simp only [one_mul] at happ
      rw [← hexp] at happ
      exact happ

theorem ceilDivN_mul_ge (a b : ℕ) (hb : 0 < b) : a ≤ ceilDivN a b * b := by
  unfold ceilDivN
  rw [Nat.mul_comm]
  have h1 := Nat.div_add_mod (a + b - 1) b
  have h2 : (a + b - 1) % b < b := Nat.mod_lt _ hb
  generalize hr : (a + b - 1) % b = R at h1 h2
  generalize hq : b * ((a + b - 1) / b) = Y at h1 ⊢
  omega

/-- C2 (amended).  When the effective steps-per-bar count is positive,
the bar loop's bound `max(ceil(cells/spb) || 1, BARS)` covers every cell
(`cells ≤ barsToUse * spb`: a long pattern is never truncated), and the
rendering of a track line processes exactly the cell indices
`0, …, cells−1`, each once — a pattern shorter than the header's bar
count is not replayed, its hits occur only in the bars its cells cover
and the remaining bars of the loop contribute nothing. -/
theorem renderLine_exact_cells (hdr : QDSHeader) (tC : ℚ)
    (st : List TimedEvent × Rng) (line : TrackLine)
    (h : 0 < effSpb hdr line) :
    (tokenizePattern line.pattern).length ≤
      lineBarsToUse hdr line * effSpb hdr line ∧
    renderLine hdr tC st line =
      List.foldl (fun s2 i => processIdx (lineCtx hdr tC line) i s2) st
        (List.range (tokenizePattern line.pattern).length) := by
  have hle : (tokenizePattern line.pattern).length ≤
      lineBarsToUse hdr line * effSpb hdr line := by
    have h1 := ceilDivN_mul_ge (tokenizePattern line.pattern).length
      (effSpb hdr line) h
    have h2 : ceilDivN (tokenizePattern line.pattern).length (effSpb hdr line) ≤
        lineBarsToUse hdr line := by
      unfold lineBarsToUse
      omega
    calc (tokenizePattern line.pattern).length ≤ _ := h1
      _ ≤ lineBarsToUse hdr line * effSpb hdr line :=
        Nat.mul_le_mul_right _ h2
  refine ⟨hle, ?_⟩
  unfold renderLine
  have hspb : (lineCtx hdr tC line).spb = effSpb hdr line := rfl
  have hcells : (lineCtx hdr tC line).cells = tokenizePattern line.pattern := rfl
  rw [barLoop_eq_foldl (lineCtx hdr tC line) (by rw [hspb]; exact h)]
  rw [List.range_eq_range']
  simp only [Nat.zero_mul, Nat.sub_zero]
  have hmin : min (lineBarsToUse hdr line * (lineCtx hdr tC line).spb)
      (lineCtx hdr tC line).cells.length =
      (tokenizePattern line.pattern).length := by
    show min (lineBarsToUse hdr line * effSpb hdr line)
        (tokenizePattern line.pattern).length =
      (tokenizePattern line.pattern).length
    omega
  rw [hmin]

/-- Witness for `renderLine_exact_cells` on a one-cell track with the
two-bar header. -/
theorem renderLine_exact_cells_witness :
    (tokenizePattern (("x").data)).length ≤
      lineBarsToUse hdrBars2
        { inst := Inst.Q, mods := { grid := none, lenSteps := none },
          pattern := ("x").data } *
        effSpb hdrBars2
          { inst := Inst.Q, mods := { grid := none, lenSteps := none },
            pattern := ("x").data } ∧
    renderLine hdrBars2 0 ([], rng0)
        { inst := Inst.Q, mods := { grid := none, lenSteps := none },
          pattern := ("x").data } =
      List.foldl
        (fun s2 i => processIdx
          (lineCtx hdrBars2 0
            { inst := Inst.Q, mods := { grid := none, lenSteps := none },
              pattern := ("x").data }) i s2)
        ([], rng0) (List.range (tokenizePattern (("x").data)).length) :=
  renderLine_exact_cells hdrBars2 0 ([], rng0)
    { inst := Inst.Q, mods := { grid := none, lenSteps := none },
      pattern := ("x").data } (by decide)

/-! ### C1: the output is sorted per section block, not globally -/

theorem flatten_map_map {α β : Type _} (f : α → β) :
    ∀ L : List (List α), (L.map (List.map f)).flatten = L.flatten.map f := by
  intro L
  induction L with
  | nil => rfl
  | cons a as ih =>
    rw [List.map_cons, List.flatten_cons, List.flatten_cons, List.map_append, ih]

theorem foldl_processSection_events (hdr : QDSHeader) (sections : Sections) :
    ∀ (names : List Str) (st : CState),
      (names.foldl (processSection hdr sections) st).events =
        st.events ++ (sectionBlocks hdr sections names st).flatten := by
  intro names
  induction names with
  | nil => intro st; simp [sectionBlocks]
  | cons name rest ih =>
    intro st
    rw [List.foldl_cons, ih, sectionBlocks]
    cases hsec : alookup sections name with
    | none =>
      simp only [processSection, hsec, List.flatten_cons, List.nil_append]
    | some sec =>
      simp only [processSection, hsec, List.flatten_cons, List.append_assoc]

theorem sectionBlocks_sorted (hdr : QDSHeader) (sections : Sections) :
    ∀ (names : List Str) (st : CState),
      ∀ b ∈ sectionBlocks hdr sections names st, List.Sorted leT b := by
  intro names
  induction names with
  | nil => intro st b hb; simp [sectionBlocks] at hb
  | cons name rest ih =>
    intro st b hb
    rw [sectionBlocks] at hb
    rcases List.mem_cons.mp hb with h1 | h1
    · subst h1
      cases hsec : alookup sections name with
      | none => simp [hsec, List.Sorted]
      | some sec =>
        simp only [hsec]
        exact List.sorted_insertionSort leT _
    · exact ih _ b h1

/-- C1 (amended).  The returned event list is the concatenation of one
block per walked section — each block that section's insertion-sorted
contribution, uniformly shifted by the normalization offset — and every
block is sorted by ascending time.  The whole list need not be sorted
across block boundaries (see the counterexample). -/
theorem compile_sectionwise_sorted (hdr : QDSHeader) (rng : Rng)
    (sections : Sections) (order : Option (List Str)) :
    ∃ m : ℚ,
      (compileRun hdr rng sections order).1 =
        ((sectionBlocks hdr sections (seqOf sections order)
            { events := [], cursor := 0, rng := rng }).map
          (List.map (fun e => { e with t := e.t - m }))).flatten ∧
      ∀ b ∈ (sectionBlocks hdr sections (seqOf sections order)
            { events := [], cursor := 0, rng := rng }).map
          (List.map (fun e => { e with t := e.t - m })),
        List.Sorted leT b := by
  have hev : ((seqOf sections order).foldl (processSection hdr sections)
      { events := [], cursor := 0, rng := rng }).events =
      (sectionBlocks hdr sections (seqOf sections order)
        { events := [], cursor := 0, rng := rng }).flatten := by
    rw [foldl_processSection_events]
    rfl
  have hsortedmap : ∀ m : ℚ,
      ∀ b ∈ (sectionBlocks hdr sections (seqOf sections order)
            { events := [], cursor := 0, rng := rng }).map
          (List.map (fun e => { e with t := e.t - m })),
        List.Sorted leT b := by
    intro m b hb
    obtain ⟨b0, hb0, rfl⟩ := List.mem_map.mp hb
    exact List.Pairwise.map _
      (fun a c (hac : leT a c) =>
        show leT { a with t := a.t - m } { c with t := c.t - m } from
          sub_le_sub_right hac m)
      (sectionBlocks_sorted hdr sections _ _ b0 hb0)
  simp only [compileRun]
  split
  · refine ⟨minT ((seqOf sections order).foldl (processSection hdr sections)
      { events := [], cursor := 0, rng := rng }).events, ?_, hsortedmap _⟩
    rw [flatten_map_map, hev]
  · refine ⟨0, ?_, hsortedmap 0⟩
    rw [flatten_map_map, hev]
    have hid : (fun e : TimedEvent => { e with t := e.t - 0 }) = fun e => e :=
      funext fun e => by simp
    rw [hid, List.map_id']

/-- Witness for `compile_sectionwise_sorted` at the overrun fixture. -/
theorem compile_sectionwise_sorted_witness :
    ∃ m : ℚ,
      (compileRun hdr120 rng0 secsAB none).1 =
        ((sectionBlocks hdr120 secsAB (seqOf secsAB none)
            { events := [], cursor := 0, rng := rng0 }).map
          (List.map (fun e => { e with t := e.t - m }))).flatten ∧
      ∀ b ∈ (sectionBlocks hdr120 secsAB (seqOf secsAB none)
            { events := [], cursor := 0, rng := rng0 }).map
          (List.map (fun e => { e with t := e.t - m })),
        List.Sorted leT b :=
  compile_sectionwise_sorted hdr120 rng0 secsAB none

/-! ### Concrete counterexample evaluations -/

set_option maxHeartbeats 1000000 in
/-- C1 (counterexample).  With one bar of `1/16` at 120 BPM, section `A`
holding a hit on cell index 17 (one step into the second bar) and section
`B` holding a hit on step 0, the compiled list is `Q` at `125`ms followed
by `W` at `0`ms: the overrunning event of `A` spills past `B`'s first
event and the returned list is not sorted over the whole list. -/
theorem compile_not_globally_sorted_cex :
    (compileRun hdr120 rng0 secsAB none).1 =
      [{ t := 125, inst := Inst.Q, velocity := 96 },
       { t := 0, inst := Inst.W, velocity := 96 }] ∧
    ¬ List.Sorted leT (compileRun hdr120 rng0 secsAB none).1 := by
  have h1 : ('1').toNat = 49 := rfl
  have h6 : ('6').toNat = 54 := rfl
  have heq : (compileRun hdr120 rng0 secsAB none).1 =
      [{ t := 125, inst := Inst.Q, velocity := 96 },
       { t := 0, inst := Inst.W, velocity := 96 }] := by
    norm_num +decide [compileRun, seqOf, objectKeys, isArrayIndexName, leIdx,
      processSection, alookup, renderLine, lineCtx, lineBarsToUse, ceilDivN,
      effSpb, effGrid, stepsPerBar, gridDenom, stepMs, barMs, tokenizePattern,
      tokenizeGo, modsLoop, matchMod, matchShiftMod, matchBraceMod,
      matchProbMod, spanDigits, isDigitC, barLoop, stepLoop, processStep,
      cellAt, swingOffsetMs, expandCell, cellHead, cellRolls, cellVel,
      cellVel0, cellProb, cellMicro, cellMods, DEFAULT_VEL, findShift,
      findProb, findVel, velInContentLast, velMatchAt, digitsToNat,
      processHit, gateStep, humanStep, Rng.next, minT, List.insertionSort,
      List.orderedInsert, leT, jsRound, hdr120, rng0, env0, secsAB, splitOnC,
      min_def, h1, h6]
  refine ⟨heq, ?_⟩
  rw [heq]
  intro hs
  have h2 := (List.pairwise_cons.mp hs).1
    { t := 0, inst := Inst.W, velocity := 96 } (by simp)
  rw [leT] at h2
  norm_num at h2

set_option maxHeartbeats 1000000 in
/-- C2 (counterexample).  With `BARS: 2` and a one-cell pattern `x`, the
compiled list holds exactly one event, at time `0` in the first bar: the
short pattern is not replayed in the second bar (the claim's reading
would require a hit in each of the two header bars). -/
theorem short_pattern_not_replayed_cex :
    (compileRun hdrBars2 rng0 secsOneHit none).1 =
      [{ t := 0, inst := Inst.Q, velocity := 96 }] := by
  have h1 : ('1').toNat = 49 := rfl
  have h6 : ('6').toNat = 54 := rfl
  norm_num +decide [compileRun, seqOf, objectKeys, isArrayIndexName, leIdx,
    processSection, alookup, renderLine, lineCtx, lineBarsToUse, ceilDivN,
    effSpb, effGrid, stepsPerBar, gridDenom, stepMs, barMs, tokenizePattern,
    tokenizeGo, modsLoop, matchMod, matchShiftMod, matchBraceMod,
    matchProbMod, spanDigits, isDigitC, barLoop, stepLoop, processStep,
    cellAt, swingOffsetMs, expandCell, cellHead, cellRolls, cellVel,
    cellVel0, cellProb, cellMicro, cellMods, DEFAULT_VEL, findShift,
    findProb, findVel, velInContentLast, velMatchAt, digitsToNat,
    processHit, gateStep, humanStep, Rng.next, minT, List.insertionSort,
    List.orderedInsert, leT, jsRound, hdrBars2, hdr120, rng0, env0,
    secsOneHit, splitOnC, min_def, h1, h6]

set_option maxHeartbeats 1000000 in
/-- C3 (counterexample).  On one compiler instance constructed with seed
`1`, compiling a score whose single hit has probability 50 twice gives
different event lists (the first draw gates the hit out, the second lets
it through): the generator's draw position survives the first `compile`
call inside the instance, so it is not local to one compile invocation. -/
theorem same_instance_recompile_differs_cex :
    (compilerSeed1.compile secsProb50 none).1 = [] ∧
    ((compilerSeed1.compile secsProb50 none).2.compile secsProb50 none).1 =
      [{ t := 0, inst := Inst.Q, velocity := 96 }] ∧
    (compilerSeed1.compile secsProb50 none).1 ≠
      ((compilerSeed1.compile secsProb50 none).2.compile secsProb50 none).1 := by
  have h1 : ('1').toNat = 49 := rfl
  have h6 : ('6').toNat = 54 := rfl
  have h5 : ('5').toNat = 53 := rfl
  have h0 : ('0').toNat = 48 := rfl
  have hj : jsToUint32 1 = 1 := by decide
  have hm0 : mb32mix 1831565814 = 2693262067 := by decide
  have hm1 : mb32mix 3663131627 = 11749833 := by decide
  have key1 : (compilerSeed1.compile secsProb50 none).1 = [] := by
    norm_num +decide [QDSCompiler.compile, compilerSeed1, mkCompiler, hdrSeed1,
      compileRun, seqOf, objectKeys, isArrayIndexName, leIdx,
      processSection, alookup, renderLine, lineCtx, lineBarsToUse, ceilDivN,
      effSpb, effGrid, stepsPerBar, gridDenom, stepMs, barMs, tokenizePattern,
      tokenizeGo, modsLoop, matchMod, matchShiftMod, matchBraceMod,
      matchProbMod, spanDigits, isDigitC, barLoop, stepLoop, processStep,
      cellAt, swingOffsetMs, expandCell, cellHead, cellRolls, cellVel,
      cellVel0, cellProb, cellMicro, cellMods, DEFAULT_VEL, findShift,
      findProb, findVel, velInContentLast, velMatchAt, digitsToNat,
      processHit, gateStep, humanStep, Rng.next, minT, List.insertionSort,
      List.orderedInsert, leT, jsRound, hdr120, env0, secsProb50, splitOnC,
      min_def, mulberry32, U32, hj, hm0, hm1, h1, h6, h5, h0]
  have key2 : ((compilerSeed1.compile secsProb50 none).2.compile secsProb50 none).1 =
      [{ t := 0, inst := Inst.Q, velocity := 96 }] := by
    norm_num +decide [QDSCompiler.compile, compilerSeed1, mkCompiler, hdrSeed1,
      compileRun, seqOf, objectKeys, isArrayIndexName, leIdx,
      processSection, alookup, renderLine, lineCtx, lineBarsToUse, ceilDivN,
      effSpb, effGrid, stepsPerBar, gridDenom, stepMs, barMs, tokenizePattern,
      tokenizeGo, modsLoop, matchMod, matchShiftMod, matchBraceMod,
      matchProbMod, spanDigits, isDigitC, barLoop, stepLoop, processStep,
      cellAt, swingOffsetMs, expandCell, cellHead, cellRolls, cellVel,
      cellVel0, cellProb, cellMicro, cellMods, DEFAULT_VEL, findShift,
      findProb, findVel, velInContentLast, velMatchAt, digitsToNat,
      processHit, gateStep, humanStep, Rng.next, minT, List.insertionSort,
      List.orderedInsert, leT, jsRound, hdr120, env0, secsProb50, splitOnC,
      min_def, mulberry32, U32, hj, hm0, hm1, h1, h6, h5, h0]
  refine ⟨key1, key2, ?_⟩
  rw [key1, key2]
  simp

set_option maxHeartbeats 1000000 in
/-- C10 (counterexample).  A score with an all-failing `ORDER` line and
sections named `Default`, `3`, `B` (in that parse order) produces the
empty order, and the fallback walks `Object.keys`, which puts the
array-index name `"3"` first: the walked sequence is `3, Default, B`, not
the parse-encounter `Default, 3, B`, and compiling (one bar of `1/16` at
120 BPM) puts section `3`'s hit at `0`ms and section `B`'s hit at
`4000`ms — two bars apart, where parse-encounter order would put them one
bar apart. -/
theorem empty_order_parse_order_cex :
    (parseLines linesNumSec).order = some [] ∧
    (parseLines linesNumSec).sections.map Prod.fst =
      [("Default").data, ("3").data, ("B").data] ∧
    seqOf (parseLines linesNumSec).sections (parseLines linesNumSec).order =
      [("3").data, ("Default").data, ("B").data] ∧
    (compileRun hdr120 rng0 (parseLines linesNumSec).sections
        (parseLines linesNumSec).order).1 =
      [{ t := 0, inst := Inst.Q, velocity := 96 },
       { t := 4000, inst := Inst.W, velocity := 96 }] := by
  have h1 : ('1').toNat = 49 := rfl
  have h6 : ('6').toNat = 54 := rfl
  have hord : (parseLines linesNumSec).order = some [] := by decide
  have hsec : (parseLines linesNumSec).sections =
      [(("Default").data, []),
       (("3").data, [{ inst := Inst.Q, mods := { grid := none, lenSteps := none },
                       pattern := ("x").data }]),
       (("B").data, [{ inst := Inst.W, mods := { grid := none, lenSteps := none },
                       pattern := ("x").data }])] := by decide
  refine ⟨hord, by rw [hsec]; rfl, ?_, ?_⟩
  · rw [hord, hsec]
    decide
  · rw [hord, hsec]
    norm_num +decide [compileRun, seqOf, objectKeys, isArrayIndexName, leIdx,
      processSection, alookup, renderLine, lineCtx, lineBarsToUse, ceilDivN,
      effSpb, effGrid, stepsPerBar, gridDenom, stepMs, barMs, tokenizePattern,
      tokenizeGo, modsLoop, matchMod, matchShiftMod, matchBraceMod,
      matchProbMod, spanDigits, isDigitC, barLoop, stepLoop, processStep,
      cellAt, swingOffsetMs, expandCell, cellHead, cellRolls, cellVel,
      cellVel0, cellProb, cellMicro, cellMods, DEFAULT_VEL, findShift,
      findProb, findVel, velInContentLast, velMatchAt, digitsToNat,
      processHit, gateStep, humanStep, Rng.next, minT, List.insertionSort,
      List.orderedInsert, leT, jsRound, hdr120, rng0, env0, splitOnC,
      min_def, h1, h6]

set_option maxHeartbeats 1000000 in
/-- Witness for `velocity_prob_bounds`: the clamped token of
`x{vel=999}` and the single event of the one-hit fixture. -/
theorem velocity_prob_bounds_witness :
    ((0 ≤ (⟨Inst.Q, 127, 100, 0, 0⟩ : HitToken).velocity ∧
      (⟨Inst.Q, 127, 100, 0, 0⟩ : HitToken).velocity ≤ 127) ∧
      (0 ≤ (⟨Inst.Q, 127, 100, 0, 0⟩ : HitToken).prob ∧
      (⟨Inst.Q, 127, 100, 0, 0⟩ : HitToken).prob ≤ 100)) ∧
    (0 ≤ (⟨0, Inst.Q, 96⟩ : TimedEvent).velocity ∧
      (⟨0, Inst.Q, 96⟩ : TimedEvent).velocity ≤ 127) := by
  have h1 : ('1').toNat = 49 := rfl
  have h6 : ('6').toNat = 54 := rfl
  have hmem : (⟨0, Inst.Q, 96⟩ : TimedEvent) ∈
      (compileRun hdr120 rng0 secsOneHit none).1 := by
    have heq : (compileRun hdr120 rng0 secsOneHit none).1 =
        [{ t := 0, inst := Inst.Q, velocity := 96 }] := by
      norm_num +decide [compileRun, seqOf, objectKeys, isArrayIndexName, leIdx,
        processSection, alookup, renderLine, lineCtx, lineBarsToUse, ceilDivN,
        effSpb, effGrid, stepsPerBar, gridDenom, stepMs, barMs, tokenizePattern,
        tokenizeGo, modsLoop, matchMod, matchShiftMod, matchBraceMod,
        matchProbMod, spanDigits, isDigitC, barLoop, stepLoop, processStep,
        cellAt, swingOffsetMs, expandCell, cellHead, cellRolls, cellVel,
        cellVel0, cellProb, cellMicro, cellMods, DEFAULT_VEL, findShift,
        findProb, findVel, velInContentLast, velMatchAt, digitsToNat,
        processHit, gateStep, humanStep, Rng.next, minT, List.insertionSort,
        List.orderedInsert, leT, jsRound, hdr120, rng0, env0, secsOneHit,
        splitOnC, min_def, h1, h6]
    rw [heq]
    exact List.mem_singleton_self _
  exact ⟨velocity_prob_bounds.1 Inst.Q (some (("x{vel=999}").data))
      ⟨Inst.Q, 127, 100, 0, 0⟩ (by decide),
    velocity_prob_bounds.2 hdr120 rng0 secsOneHit none ⟨0, Inst.Q, 96⟩ hmem⟩

end QDS
